import Mathlib

/-!
# CDT utilities (`CDTUtils.h`)

A shallow embedding of the utility layer of the constrained Delaunay
triangulation library: the undirected `Edge` and its hash, the corner-index
arithmetic of a `Triangle`, the corner lookups, and the bounding box `Box2d`.

Conventions of the embedding.

* `VertInd`, `TriInd` (unsigned machine integers that are only compared) are `Nat`.
* `std::size_t` is `Nat` reduced modulo `2 ^ w`, the width `w` being a parameter.
* A function that throws returns `Option`, `none` standing for the throw.
* The coordinate type `T` of `V2d` and `Box2d` is any type with a decidable `<`; the
  theorems that need a total order assume it. `std::numeric_limits<T>::max()` is the
  parameter `maxT`.
* `CDTUtils.h` only declares the functions whose bodies live in `CDTUtils.hpp`;
  the definitions standing for those bodies say so in their doc comment.
-/

namespace CDT

/-! ## `std::min` and `std::max` -/

/-- The C++ `std::min(a, b)`: `(b < a) ? b : a`. -/
def stdMin {T : Type} [LT T] [∀ a b : T, Decidable (a < b)] (a b : T) : T :=
  if b < a then b else a

/-- The C++ `std::max(a, b)`: `(a < b) ? b : a`. -/
def stdMax {T : Type} [LT T] [∀ a b : T, Decidable (a < b)] (a b : T) : T :=
  if a < b then b else a

/-! ## Edge -/

/-- The `struct Edge`: its only data member is the pair `m_vertices`. -/
structure Edge where
  m_vertices : Nat × Nat
deriving DecidableEq, Repr

/-- Modelled from the spec: the body of the constructor `Edge::Edge(iV1, iV2)` is not in
`CDTUtils.h`, which only says "vertex with smaller index is always first". Section 4.3:
construction "takes two distinct vertex indices and stores them with the numerically
smaller first; constructing an edge with two equal indices is a caller error (signals an
error)". `none` is the signalled error. -/
def Edge.make (iV1 iV2 : Nat) : Option Edge :=
  if iV1 = iV2 then none
  else if iV1 < iV2 then some ⟨(iV1, iV2)⟩
  else some ⟨(iV2, iV1)⟩

/-- Modelled from the spec: the body of `Edge::verts()` is not in `CDTUtils.h`; it is the
getter of "Edges' vertices", the stored pair. -/
def Edge.verts (e : Edge) : Nat × Nat := e.m_vertices

/-- Modelled from the spec: the body of `Edge::v1()` is not in `CDTUtils.h`; "V1 getter",
the first component of the stored pair. -/
def Edge.v1 (e : Edge) : Nat := e.m_vertices.1

/-- Modelled from the spec: the body of `Edge::v2()` is not in `CDTUtils.h`; "V2 getter",
the second component of the stored pair. -/
def Edge.v2 (e : Edge) : Nat := e.m_vertices.2

/-- Modelled from the spec: the body of `Edge::operator==` is not in `CDTUtils.h`.
Section 3: "two edges are equal iff their canonical pairs are equal"; the comparison of two
`std::pair`s compares the first components and then the second ones. -/
def Edge.equals (e other : Edge) : Bool :=
  e.m_vertices.1 == other.m_vertices.1 && e.m_vertices.2 == other.m_vertices.2

/-- The inline `edge_get_v1(e)`: `return e.v1();`. -/
def edge_get_v1 (e : Edge) : Nat := e.v1

/-- The inline `edge_get_v2(e)`: `return e.v2();`. -/
def edge_get_v2 (e : Edge) : Nat := e.v2

/-- The inline `edge_make(iV1, iV2)`: `return Edge(iV1, iV2);`. -/
def edge_make (iV1 iV2 : Nat) : Option Edge := Edge.make iV1 iV2

/-! ## The hash of an edge -/

/-- The private `hash<CDT::Edge>::hashCombine(seed, key)`:
`seed ^= Hasher()(key) + 0x9e3779b9 + (seed << 6) + (seed >> 2);`
in `std::size_t` arithmetic of width `w`. `hasher` is the vertex hasher; its value is read
as a `size_t`. The result is the new value of `seed`. -/
def hashCombine (w : Nat) (hasher : Nat → Nat) (seed key : Nat) : Nat :=
  seed ^^^ ((hasher key % 2 ^ w + 0x9e3779b9 + (seed <<< 6) % 2 ^ w + (seed >>> 2)) % 2 ^ w)

/-- The private `hash<CDT::Edge>::hashEdge(e)`: the pair is combined in both orders,
starting from the seed `0`, and the smaller of the two seeds is returned. -/
def hashEdge (w : Nat) (hasher : Nat → Nat) (e : Edge) : Nat :=
  let vv := e.verts
  let seed1 := hashCombine w hasher (hashCombine w hasher 0 vv.1) vv.2
  let seed2 := hashCombine w hasher (hashCombine w hasher 0 vv.2) vv.1
  stdMin seed1 seed2

/-- The `hash<CDT::Edge>::operator()(e)`: `return hashEdge(e);`. -/
def hashOp (w : Nat) (hasher : Nat → Nat) (e : Edge) : Nat := hashEdge w hasher e

/-! ## Corner indices -/

/-- Modelled from the spec: the body of `ccw(i)` is not in `CDTUtils.h` ("Advance vertex
or neighbor index counter-clockwise"). Section 3: `ccw(i)` and `cw(i)` "advance this index
modulo 3 in the two rotational directions"; the vertices are stored counter-clockwise, so
the counter-clockwise successor of a slot is the next slot. -/
def ccw (i : Nat) : Nat := (i + 1) % 3

/-- Modelled from the spec: the body of `cw(i)` is not in `CDTUtils.h` ("Advance vertex or
neighbor index clockwise"): the other rotational direction, the previous slot modulo 3. -/
def cw (i : Nat) : Nat := (i + 2) % 3

/-! ## Triangle -/

/-- An `array<IndexSizeType, 3>` (`VerticesArr3`, `NeighborsArr3`): three indices. -/
structure Arr3 where
  e0 : Nat
  e1 : Nat
  e2 : Nat
deriving DecidableEq, Repr

/-- The element `a[i]` of an array of three; `none` outside the array. -/
def Arr3.at (a : Arr3) (i : Nat) : Option Nat :=
  match i with
  | 0 => some a.e0
  | 1 => some a.e1
  | 2 => some a.e2
  | _ => none

/-- The `struct Triangle`: three vertices and three neighbors. -/
structure Triangle where
  vertices : Arr3
  neighbors : Arr3
deriving DecidableEq, Repr

/-- Modelled from the spec: the layout of a triangle is fixed by no function of
`CDTUtils.h`. Section 3: "`neighbors[k]` is the triangle sharing the edge opposite
`vertices[k]`, i.e. the edge `(vertices[ccw(k)], vertices[cw(k)])`". `sideOfNeighbor k` is
the pair of vertex slots at the two ends of the side across which `neighbors[k]` lies. -/
def sideOfNeighbor (k : Nat) : Nat × Nat :=
  (ccw k, cw k)

/-- Whether vertex slot `v` is the one facing neighbor slot `n`: it is not an end of the
side of `n`. -/
def isOpposed (v n : Nat) : Bool :=
  v != (sideOfNeighbor n).1 && v != (sideOfNeighbor n).2

/-- Modelled from the spec: the body of `opoNbr(vertIndex)` is not in `CDTUtils.h`
("Opposed neighbor index from vertex index"). Section 4.4: "the neighbor-slot index
opposite that vertex corner", looked up in the layout of section 3; an index that is no
corner of a triangle has no opposed neighbor. -/
def opoNbr (vertIndex : Nat) : Option Nat :=
  if vertIndex < 3 then [0, 1, 2].find? (fun n => isOpposed vertIndex n) else none

/-- Modelled from the spec: the body of `opoVrt(neighborIndex)` is not in `CDTUtils.h`
("Opposed vertex index from neighbor index"). Section 4.4: "the vertex-slot index opposite
that neighbor corner", looked up in the layout of section 3; an index that is no corner of
a triangle has no opposed vertex. -/
def opoVrt (neighborIndex : Nat) : Option Nat :=
  if neighborIndex < 3 then [0, 1, 2].find? (fun v => isOpposed v neighborIndex) else none

/-- Modelled from the spec: the body of `vertexInd(tri, iV)` is not in `CDTUtils.h` ("If
triangle has a given vertex return vertex-index, throw otherwise"). Section 4.4: "returns
the corner index of a given vertex; fails (not found) if absent". The three slots are
compared in order. -/
def vertexInd (tri : Triangle) (iV : Nat) : Option Nat :=
  if iV = tri.vertices.e0 then some 0
  else if iV = tri.vertices.e1 then some 1
  else if iV = tri.vertices.e2 then some 2
  else none

/-- Modelled from the spec: the body of `neighborInd(tri, iTnbr)` is not in `CDTUtils.h`
("If triangle has a given neighbor return neighbor-index, throw otherwise"). Section 4.4:
the corner index `k` with `neighbors[k] == iTnbr`, failing when there is none. The three
slots are compared in order. -/
def neighborInd (tri : Triangle) (iTnbr : Nat) : Option Nat :=
  if iTnbr = tri.neighbors.e0 then some 0
  else if iTnbr = tri.neighbors.e1 then some 1
  else if iTnbr = tri.neighbors.e2 then some 2
  else none

/-- Modelled from the spec: the body of `opposedTriangleInd(tri, iVert)` is not in
`CDTUtils.h` ("Index of triangle's neighbor opposed to a vertex"). Section 4.4: "the corner
index `k` such that `triangle.vertices[k] == vertexIndex`, interpreted as identifying the
neighbor opposite that vertex; fails (signals not found) if `vertexIndex` is not one of the
triangle's three vertices". The three slots are compared in order. -/
def opposedTriangleInd (tri : Triangle) (iVert : Nat) : Option Nat :=
  if iVert = tri.vertices.e0 then some 0
  else if iVert = tri.vertices.e1 then some 1
  else if iVert = tri.vertices.e2 then some 2
  else none

/-- Modelled from the spec: the body of `opposedVertexInd(tri, iTopo)` is not in
`CDTUtils.h` ("Index of triangle's vertex opposed to a triangle"). Section 4.4: "the corner
index `k` such that `triangle.neighbors[k] == neighborTriangleIndex`; fails (not found) if
that triangle index is not among the three neighbors". The three slots are compared in
order. -/
def opposedVertexInd (tri : Triangle) (iTopo : Nat) : Option Nat :=
  if iTopo = tri.neighbors.e0 then some 0
  else if iTopo = tri.neighbors.e1 then some 1
  else if iTopo = tri.neighbors.e2 then some 2
  else none

/-! ## Points and boxes -/

/-- The `struct V2d<T>`: a pair of coordinates. -/
structure V2d (T : Type) where
  x : T
  y : T
deriving DecidableEq, Repr

/-- The `struct Box2d<T>`: the min and max corners. -/
structure Box2d (T : Type) where
  min : V2d T
  max : V2d T
deriving DecidableEq, Repr

/-- The member `Box2d::envelopPoint(x, y)`; the result is the box after the call. -/
def Box2d.envelopPoint {T : Type} [LT T] [∀ a b : T, Decidable (a < b)] (box : Box2d T)
    (x y : T) : Box2d T :=
  { min := { x := stdMin x box.min.x, y := stdMin y box.min.y },
    max := { x := stdMax x box.max.x, y := stdMax y box.max.y } }

/-- The member `Box2d::envelopPoint(p)`: `envelopPoint(p.x, p.y);`. -/
def Box2d.envelopPointV {T : Type} [LT T] [∀ a b : T, Decidable (a < b)] (box : Box2d T)
    (p : V2d T) : Box2d T :=
  box.envelopPoint p.x p.y

/-- The seed of `envelopBox`: `{{max, max}, {-max, -max}}`. -/
def seedBox {T : Type} [Neg T] (maxT : T) : Box2d T :=
  { min := { x := maxT, y := maxT }, max := { x := -maxT, y := -maxT } }

/-- The template `envelopBox(first, last, getX, getY)`: the range `[first, last)` is the
list `pts`, `maxT` is `std::numeric_limits<T>::max()`. -/
def envelopBox {T α : Type} [LT T] [∀ a b : T, Decidable (a < b)] [Neg T] (maxT : T)
    (pts : List α)
    (getX getY : α → T) : Box2d T :=
  pts.foldl (fun box p => box.envelopPoint (getX p) (getY p)) (seedBox maxT)

/-- The getter `getX_V2d(v)`: `return v.x;`. -/
def getX_V2d {T : Type} (v : V2d T) : T := v.x

/-- The getter `getY_V2d(v)`: `return v.y;`. -/
def getY_V2d {T : Type} (v : V2d T) : T := v.y

/-- Whether the point `(x, y)` lies in the box, borders included. -/
def Box2d.contains {T : Type} [LE T] (box : Box2d T) (x y : T) : Prop :=
  box.min.x ≤ x ∧ x ≤ box.max.x ∧ box.min.y ≤ y ∧ y ≤ box.max.y

instance Box2d.decidableContains {T : Type} [LE T] [∀ a b : T, Decidable (a ≤ b)]
    (box : Box2d T) (x y : T) : Decidable (box.contains x y) := by
  unfold Box2d.contains
  infer_instance

/-! ## A coordinate type with a NaN -/

/-- The values of a floating-point coordinate type that the comparisons below need: the
numbers (here the integers, which `double` represents exactly up to `2 ^ 53`) and `NaN`. -/
inductive DoubleLike where
  | nan
  | num (v : Int)
deriving DecidableEq, Repr

/-- The IEEE 754 `a < b`: false as soon as one side is `NaN`. -/
def DoubleLike.less (a b : DoubleLike) : Bool :=
  match a, b with
  | .num u, .num v => decide (u < v)
  | _, _ => false

/-- The IEEE 754 `a <= b`: false as soon as one side is `NaN`. -/
def DoubleLike.lessEq (a b : DoubleLike) : Bool :=
  match a, b with
  | .num u, .num v => decide (u ≤ v)
  | _, _ => false

instance DoubleLike.instLT : LT DoubleLike := ⟨fun a b => DoubleLike.less a b = true⟩

instance DoubleLike.instLE : LE DoubleLike := ⟨fun a b => DoubleLike.lessEq a b = true⟩

instance DoubleLike.decLt (a b : DoubleLike) : Decidable (a < b) :=
  inferInstanceAs (Decidable (DoubleLike.less a b = true))

instance DoubleLike.decLe (a b : DoubleLike) : Decidable (a ≤ b) :=
  inferInstanceAs (Decidable (DoubleLike.lessEq a b = true))

/-- The exact `operator==` of two `V2d<T>`: `lhs.x == rhs.x && lhs.y == rhs.y`. -/
def V2d.equals {T : Type} [DecidableEq T] (lhs rhs : V2d T) : Bool :=
  lhs.x == rhs.x && lhs.y == rhs.y

/-! ## Index types and sentinels -/

/-- The width in bits of `IndexSizeType`: `unsigned long long` when
`CDT_USE_64_BIT_INDEX_TYPE` is defined, `unsigned int` otherwise. -/
def indexSizeBits (use64BitIndex : Bool) : Nat :=
  if use64BitIndex then 64 else 32

/-- The value `std::numeric_limits<U>::max()` of an unsigned integer type `U` of `w` bits:
all bits set. -/
def unsignedLimitsMax (w : Nat) : Nat := 2 ^ w - 1

/-- The constant `noNeighbor(std::numeric_limits<TriInd>::max())`. -/
def noNeighbor (use64BitIndex : Bool) : Nat :=
  unsignedLimitsMax (indexSizeBits use64BitIndex)

/-- The constant `noVertex(std::numeric_limits<VertInd>::max())`. -/
def noVertex (use64BitIndex : Bool) : Nat :=
  unsignedLimitsMax (indexSizeBits use64BitIndex)

/-! ## Locations -/

/-- The `PtTriLocation::Enum`: location of a point on a triangle. -/
inductive PtTriLocation where
  | Inside
  | Outside
  | OnEdge1
  | OnEdge2
  | OnEdge3
deriving DecidableEq, Repr

/-- The `PtLineLocation::Enum`: relative location of a point to a line. -/
inductive PtLineLocation where
  | Left
  | Right
  | OnLine
deriving DecidableEq, Repr

/-- Modelled from the spec: the body of `isOnEdge(location)` is not in `CDTUtils.h` ("Check
if location is classified as on any of three edges"). -/
def isOnEdge (location : PtTriLocation) : Bool :=
  match location with
  | .OnEdge1 => true
  | .OnEdge2 => true
  | .OnEdge3 => true
  | _ => false

/-- Modelled from the spec: the body of `edgeNeighbor(location)` is not in `CDTUtils.h`
("Neighbor index from a on-edge location", "Call only if located on the edge!").
Section 4.5: it translates "an OnEdgeK location into the corresponding corner index" and
"must only be called when `isOnEdge` is true"; `none` stands for a call outside that
precondition. -/
def edgeNeighbor (location : PtTriLocation) : Option Nat :=
  match location with
  | .OnEdge1 => some 0
  | .OnEdge2 => some 1
  | .OnEdge3 => some 2
  | _ => none

/-- Modelled from the spec: the body of `classifyOrientation(orientation,
orientationTolerance)` is not in `CDTUtils.h` ("Classify value of orient2d predicate").
Section 4.5: "values within `[-tolerance, tolerance]` classify as OnLine"; outside the band
the sign decides, "positive = left/CCW, negative = right/CW". -/
def classifyOrientation {T : Type} [LinearOrderedAddCommGroup T]
    (orientation orientationTolerance : T) : PtLineLocation :=
  if -orientationTolerance ≤ orientation ∧ orientation ≤ orientationTolerance then
    PtLineLocation.OnLine
  else if 0 < orientation then PtLineLocation.Left
  else PtLineLocation.Right

/-- Modelled from the spec: the body of `verticesShareEdge(aTris, bTris)` is not in
`CDTUtils.h` ("Test if two vertices share at least one common triangle"). Section 4.4:
"returns true iff the intersection is non-empty": each triangle of `aTris` is looked up in
`bTris`. -/
def verticesShareEdge (aTris bTris : List Nat) : Bool :=
  aTris.any (fun t => bTris.contains t)

/-! ## Facts on `std::min` and `std::max` -/

theorem stdMin_eq_min {T : Type} [LinearOrder T] (a b : T) : stdMin a b = min a b := by
  unfold stdMin
  split
  · next h => exact (min_eq_right (le_of_lt h)).symm
  · next h => exact (min_eq_left (not_lt.mp h)).symm

theorem stdMax_eq_max {T : Type} [LinearOrder T] (a b : T) : stdMax a b = max a b := by
  unfold stdMax
  split
  · next h => exact (max_eq_right (le_of_lt h)).symm
  · next h => exact (max_eq_left (not_lt.mp h)).symm

theorem hashCombine_lt (w : Nat) (hasher : Nat → Nat) (seed key : Nat) (hs : seed < 2 ^ w) :
    hashCombine w hasher seed key < 2 ^ w := by
  unfold hashCombine
  exact Nat.xor_lt_two_pow hs (Nat.mod_lt _ (Nat.two_pow_pos w))

/-! ## C1 -/

/-- C1. The hash of an edge does not depend on the order of the stored pair: for every
width `w` of `size_t`, every vertex hasher and all vertex indices `a`, `b`, `hashEdge` on
the stored pair `(a, b)` and on the stored pair `(b, a)` return the same value, which is a
`size_t` value; hence the hashes of the constructed edges `Edge(a, b)` and `Edge(b, a)`
agree as well. -/
theorem hashEdge_order_independent (w : Nat) (hasher : Nat → Nat) (a b : Nat) :
    hashEdge w hasher ⟨(a, b)⟩ = hashEdge w hasher ⟨(b, a)⟩
    ∧ hashOp w hasher ⟨(a, b)⟩ = hashOp w hasher ⟨(b, a)⟩
    ∧ hashEdge w hasher ⟨(a, b)⟩ < 2 ^ w
    ∧ (Edge.make a b).map (hashOp w hasher) = (Edge.make b a).map (hashOp w hasher) := by
  have key : hashEdge w hasher ⟨(a, b)⟩ = hashEdge w hasher ⟨(b, a)⟩ := by
    simp only [hashEdge, Edge.verts, stdMin_eq_min]
    exact min_comm _ _
  refine ⟨key, key, ?_, ?_⟩
  · simp only [hashEdge, Edge.verts, stdMin_eq_min]
    have h0 : (0 : Nat) < 2 ^ w := Nat.two_pow_pos w
    exact lt_of_le_of_lt (min_le_left _ _)
      (hashCombine_lt w hasher _ _ (hashCombine_lt w hasher 0 a h0))
  · unfold Edge.make
    rcases Nat.lt_trichotomy a b with h | h | h
    · have h1 : a ≠ b := Nat.ne_of_lt h
      have h2 : b ≠ a := fun e => h1 e.symm
      have h3 : ¬ b < a := Nat.lt_asymm h
      simp [h, h1, h2, h3]
    · subst h
      rfl
    · have h1 : a ≠ b := fun e => (Nat.ne_of_lt h) e.symm
      have h2 : b ≠ a := Nat.ne_of_lt h
      have h3 : ¬ a < b := Nat.lt_asymm h
      simp [h, h1, h2, h3]

/-! ## C2 -/

/-- C2. Construction of an edge is canonical: for distinct vertex indices `a` and `b` both
`Edge(a, b)` and `Edge(b, a)` are built, `Edge(a, b)` stores `v1() = min(a, b)` and
`v2() = max(a, b)` with `v1() < v2()`, the two edges are equal, `edge_make` and the getters
`edge_get_v1`, `edge_get_v2` agree with the constructor and `v1()`, `v2()`; and any two edges
are equal iff their stored `(v1, v2)` pairs are equal. -/
theorem Edge_make_canonical (a b : Nat) (hab : a ≠ b) :
    (∃ e e2 : Edge, Edge.make a b = some e ∧ Edge.make b a = some e2
      ∧ e.v1 = min a b ∧ e.v2 = max a b ∧ e.v1 < e.v2
      ∧ e.equals e2 = true ∧ e = e2
      ∧ edge_make a b = some e ∧ edge_get_v1 e = min a b ∧ edge_get_v2 e = max a b)
    ∧ (∀ e1 e2 : Edge, e1.equals e2 = true ↔ (e1.v1 = e2.v1 ∧ e1.v2 = e2.v2)) := by
  constructor
  · rcases Nat.lt_or_gt_of_ne hab with h | h
    · refine ⟨⟨(a, b)⟩, ⟨(a, b)⟩, ?_, ?_, ?_, ?_, ?_, ?_, rfl, ?_, ?_, ?_⟩
      · simp [Edge.make, hab, h]
      · have h2 : b ≠ a := fun e => hab e.symm
        simp [Edge.make, h2, Nat.lt_asymm h]
      · simp [Edge.v1, Nat.le_of_lt h]
      · simp [Edge.v2, Nat.le_of_lt h]
      · simpa [Edge.v1, Edge.v2] using h
      · simp [Edge.equals]
      · simp [edge_make, Edge.make, hab, h]
      · simp [edge_get_v1, Edge.v1, Nat.le_of_lt h]
      · simp [edge_get_v2, Edge.v2, Nat.le_of_lt h]
    · have h2 : b ≠ a := fun e => hab e.symm
      refine ⟨⟨(b, a)⟩, ⟨(b, a)⟩, ?_, ?_, ?_, ?_, ?_, ?_, rfl, ?_, ?_, ?_⟩
      · simp [Edge.make, hab, Nat.lt_asymm h]
      · simp [Edge.make, h2, h]
      · simp [Edge.v1, Nat.le_of_lt h]
      · simp [Edge.v2, Nat.le_of_lt h]
      · simpa [Edge.v1, Edge.v2] using h
      · simp [Edge.equals]
      · simp [edge_make, Edge.make, hab, Nat.lt_asymm h]
      · simp [edge_get_v1, Edge.v1, Nat.le_of_lt h]
      · simp [edge_get_v2, Edge.v2, Nat.le_of_lt h]
  · intro e1 e2
    simp [Edge.equals, Edge.v1, Edge.v2]

/-- Instance of C2 at `a = 7`, `b = 3`. -/
theorem Edge_make_canonical_witness :
    (7 : Nat) ≠ 3
    ∧ ((∃ e e2 : Edge, Edge.make 7 3 = some e ∧ Edge.make 3 7 = some e2
        ∧ e.v1 = min 7 3 ∧ e.v2 = max 7 3 ∧ e.v1 < e.v2
        ∧ e.equals e2 = true ∧ e = e2
        ∧ edge_make 7 3 = some e ∧ edge_get_v1 e = min 7 3 ∧ edge_get_v2 e = max 7 3)
      ∧ (∀ e1 e2 : Edge, e1.equals e2 = true ↔ (e1.v1 = e2.v1 ∧ e1.v2 = e2.v2))) :=
  ⟨by decide, Edge_make_canonical 7 3 (by decide)⟩

/-! ## C3 -/

/-- C3. Constructing an edge from two equal vertex indices fails: for every `a` neither
`Edge(a, a)` nor `edge_make(a, a)` produces an edge. -/
theorem Edge_make_equal_fails (a : Nat) :
    Edge.make a a = none ∧ edge_make a a = none := by
  simp [edge_make, Edge.make]

/-! ## C4 -/

/-- C4. On the corner indices `0, 1, 2` the rotations `cw` and `ccw` are inverse to each
other, `ccw` has order three, and both stay among the corner indices. -/
theorem ccw_cw_rotations (i : Nat) (hi : i < 3) :
    cw (ccw i) = i ∧ ccw (cw i) = i ∧ ccw (ccw (ccw i)) = i ∧ ccw i < 3 ∧ cw i < 3 := by
  unfold cw ccw
  omega

/-- Instance of C4 at the corner `1`. -/
theorem ccw_cw_rotations_witness :
    (1 : Nat) < 3
    ∧ (cw (ccw 1) = 1 ∧ ccw (cw 1) = 1 ∧ ccw (ccw (ccw 1)) = 1 ∧ ccw 1 < 3 ∧ cw 1 < 3) :=
  ⟨by decide, ccw_cw_rotations 1 (by decide)⟩

/-! ## Folding `envelopPoint` over a range -/

theorem foldl_min_spec {T α : Type} [LinearOrder T] (f : α → T) (l : List α) :
    ∀ m : T, l.foldl (fun acc p => min (f p) acc) m ≤ m
      ∧ (∀ p ∈ l, l.foldl (fun acc p => min (f p) acc) m ≤ f p)
      ∧ (l.foldl (fun acc p => min (f p) acc) m = m
          ∨ ∃ p ∈ l, f p = l.foldl (fun acc p => min (f p) acc) m) := by
  induction l with
  | nil => intro m; simp
  | cons a t ih =>
    intro m
    obtain ⟨h1, h2, h3⟩ := ih (min (f a) m)
    simp only [List.foldl_cons]
    refine ⟨le_trans h1 (min_le_right _ _), ?_, ?_⟩
    · intro p hp
      rcases List.mem_cons.mp hp with rfl | hp
      · exact le_trans h1 (min_le_left _ _)
      · exact h2 p hp
    · rcases h3 with h3 | ⟨p, hp, hpe⟩
      · rcases le_total (f a) m with hle | hle
        · right
          exact ⟨a, List.mem_cons_self _ _, by rw [h3, min_eq_left hle]⟩
        · left
          rw [h3, min_eq_right hle]
      · right
        exact ⟨p, List.mem_cons_of_mem _ hp, hpe⟩

theorem foldl_max_spec {T α : Type} [LinearOrder T] (f : α → T) (l : List α) :
    ∀ m : T, m ≤ l.foldl (fun acc p => max (f p) acc) m
      ∧ (∀ p ∈ l, f p ≤ l.foldl (fun acc p => max (f p) acc) m)
      ∧ (l.foldl (fun acc p => max (f p) acc) m = m
          ∨ ∃ p ∈ l, f p = l.foldl (fun acc p => max (f p) acc) m) := by
  induction l with
  | nil => intro m; simp
  | cons a t ih =>
    intro m
    obtain ⟨h1, h2, h3⟩ := ih (max (f a) m)
    simp only [List.foldl_cons]
    refine ⟨le_trans (le_max_right _ _) h1, ?_, ?_⟩
    · intro p hp
      rcases List.mem_cons.mp hp with rfl | hp
      · exact le_trans (le_max_left _ _) h1
      · exact h2 p hp
    · rcases h3 with h3 | ⟨p, hp, hpe⟩
      · rcases le_total (f a) m with hle | hle
        · left
          rw [h3, max_eq_right hle]
        · right
          exact ⟨a, List.mem_cons_self _ _, by rw [h3, max_eq_left hle]⟩
      · right
        exact ⟨p, List.mem_cons_of_mem _ hp, hpe⟩

theorem envelop_fold_min_x {T α : Type} [LinearOrder T] (getX getY : α → T) (pts : List α) :
    ∀ box : Box2d T,
      (pts.foldl (fun box p => box.envelopPoint (getX p) (getY p)) box).min.x
        = pts.foldl (fun acc p => min (getX p) acc) box.min.x := by
  induction pts with
  | nil => intro box; rfl
  | cons a t ih =>
    intro box
    simp only [List.foldl_cons, ih]
    simp [Box2d.envelopPoint, stdMin_eq_min]

theorem envelop_fold_min_y {T α : Type} [LinearOrder T] (getX getY : α → T) (pts : List α) :
    ∀ box : Box2d T,
      (pts.foldl (fun box p => box.envelopPoint (getX p) (getY p)) box).min.y
        = pts.foldl (fun acc p => min (getY p) acc) box.min.y := by
  induction pts with
  | nil => intro box; rfl
  | cons a t ih =>
    intro box
    simp only [List.foldl_cons, ih]
    simp [Box2d.envelopPoint, stdMin_eq_min]

theorem envelop_fold_max_x {T α : Type} [LinearOrder T] (getX getY : α → T) (pts : List α) :
    ∀ box : Box2d T,
      (pts.foldl (fun box p => box.envelopPoint (getX p) (getY p)) box).max.x
        = pts.foldl (fun acc p => max (getX p) acc) box.max.x := by
  induction pts with
  | nil => intro box; rfl
  | cons a t ih =>
    intro box
    simp only [List.foldl_cons, ih]
    simp [Box2d.envelopPoint, stdMax_eq_max]

theorem envelop_fold_max_y {T α : Type} [LinearOrder T] (getX getY : α → T) (pts : List α) :
    ∀ box : Box2d T,
      (pts.foldl (fun box p => box.envelopPoint (getX p) (getY p)) box).max.y
        = pts.foldl (fun acc p => max (getY p) acc) box.max.y := by
  induction pts with
  | nil => intro box; rfl
  | cons a t ih =>
    intro box
    simp only [List.foldl_cons, ih]
    simp [Box2d.envelopPoint, stdMax_eq_max]

/-- The least value of a non-empty range bounded above by the seed is attained. -/
theorem foldl_min_attained {T α : Type} [LinearOrder T] (f : α → T) (l : List α) (m : T)
    (hne : l ≠ []) (hb : ∀ p ∈ l, f p ≤ m) :
    ∃ p ∈ l, f p = l.foldl (fun acc p => min (f p) acc) m := by
  obtain ⟨_, h2, h3⟩ := foldl_min_spec f l m
  rcases h3 with h3 | h3
  · obtain ⟨a, ha⟩ := List.exists_mem_of_ne_nil l hne
    refine ⟨a, ha, le_antisymm ?_ (h2 a ha)⟩
    rw [h3]
    exact hb a ha
  · exact h3

/-- The greatest value of a non-empty range bounded below by the seed is attained. -/
theorem foldl_max_attained {T α : Type} [LinearOrder T] (f : α → T) (l : List α) (m : T)
    (hne : l ≠ []) (hb : ∀ p ∈ l, m ≤ f p) :
    ∃ p ∈ l, f p = l.foldl (fun acc p => max (f p) acc) m := by
  obtain ⟨_, h2, h3⟩ := foldl_max_spec f l m
  rcases h3 with h3 | h3
  · obtain ⟨a, ha⟩ := List.exists_mem_of_ne_nil l hne
    refine ⟨a, ha, le_antisymm (h2 a ha) ?_⟩
    rw [h3]
    exact hb a ha
  · exact h3

/-! ## C5 -/

/-- C5. `envelopBox` computes the extents of a point set: for a non-empty range whose
coordinates all lie between `-max` and `max`, `min.x` of the returned box is the least
x-coordinate of the range (it is the x-coordinate of some point and below every one),
`max.x` the greatest, likewise for y; so every point of the range lies in the box. -/
theorem envelopBox_extents {T α : Type} [LinearOrder T] [Neg T] (maxT : T) (pts : List α)
    (getX getY : α → T) (hne : pts ≠ [])
    (hb : ∀ p ∈ pts, -maxT ≤ getX p ∧ getX p ≤ maxT ∧ -maxT ≤ getY p ∧ getY p ≤ maxT) :
    ((∃ p ∈ pts, getX p = (envelopBox maxT pts getX getY).min.x)
      ∧ ∀ p ∈ pts, (envelopBox maxT pts getX getY).min.x ≤ getX p)
    ∧ ((∃ p ∈ pts, getX p = (envelopBox maxT pts getX getY).max.x)
      ∧ ∀ p ∈ pts, getX p ≤ (envelopBox maxT pts getX getY).max.x)
    ∧ ((∃ p ∈ pts, getY p = (envelopBox maxT pts getX getY).min.y)
      ∧ ∀ p ∈ pts, (envelopBox maxT pts getX getY).min.y ≤ getY p)
    ∧ ((∃ p ∈ pts, getY p = (envelopBox maxT pts getX getY).max.y)
      ∧ ∀ p ∈ pts, getY p ≤ (envelopBox maxT pts getX getY).max.y)
    ∧ ∀ p ∈ pts, (envelopBox maxT pts getX getY).contains (getX p) (getY p) := by
  have hminx := envelop_fold_min_x getX getY pts (seedBox maxT)
  have hminy := envelop_fold_min_y getX getY pts (seedBox maxT)
  have hmaxx := envelop_fold_max_x getX getY pts (seedBox maxT)
  have hmaxy := envelop_fold_max_y getX getY pts (seedBox maxT)
  have sminx := foldl_min_spec getX pts maxT
  have sminy := foldl_min_spec getY pts maxT
  have smaxx := foldl_max_spec getX pts (-maxT)
  have smaxy := foldl_max_spec getY pts (-maxT)
  have aminx := foldl_min_attained getX pts maxT hne (fun p hp => (hb p hp).2.1)
  have aminy := foldl_min_attained getY pts maxT hne (fun p hp => (hb p hp).2.2.2)
  have amaxx := foldl_max_attained getX pts (-maxT) hne (fun p hp => (hb p hp).1)
  have amaxy := foldl_max_attained getY pts (-maxT) hne (fun p hp => (hb p hp).2.2.1)
  unfold Box2d.contains envelopBox
  rw [hminx, hminy, hmaxx, hmaxy]
  exact ⟨⟨aminx, sminx.2.1⟩, ⟨amaxx, smaxx.2.1⟩, ⟨aminy, sminy.2.1⟩, ⟨amaxy, smaxy.2.1⟩,
    fun p hp => ⟨sminx.2.1 p hp, smaxx.2.1 p hp, sminy.2.1 p hp, smaxy.2.1 p hp⟩⟩

/-- Instance of C5 on the two points `(3, 4)` and `(-2, 9)` of an 8-bit coordinate type:
the box is `{(-2, 4), (3, 9)}`. -/
theorem envelopBox_extents_witness :
    ([⟨3, 4⟩, ⟨-2, 9⟩] : List (V2d Int)) ≠ []
    ∧ (∀ p ∈ ([⟨3, 4⟩, ⟨-2, 9⟩] : List (V2d Int)),
        -(127 : Int) ≤ getX_V2d p ∧ getX_V2d p ≤ 127 ∧ -(127 : Int) ≤ getY_V2d p
          ∧ getY_V2d p ≤ 127)
    ∧ envelopBox (127 : Int) [⟨3, 4⟩, ⟨-2, 9⟩] getX_V2d getY_V2d = ⟨⟨-2, 4⟩, ⟨3, 9⟩⟩
    ∧ (∀ p ∈ ([⟨3, 4⟩, ⟨-2, 9⟩] : List (V2d Int)),
        (envelopBox (127 : Int) [⟨3, 4⟩, ⟨-2, 9⟩] getX_V2d getY_V2d).contains
          (getX_V2d p) (getY_V2d p)) :=
  ⟨by decide, by decide, by decide,
    (envelopBox_extents (127 : Int) [⟨3, 4⟩, ⟨-2, 9⟩] getX_V2d getY_V2d (by decide)
      (by decide)).2.2.2.2⟩

/-! ## C6 -/

/-- C6, as stated, fails: with the 32-bit signed coordinate type (`max = 2147483647`) the
point `(-2147483648, 0)`, whose x-coordinate is the least value of the type, gives the box
`{(-2147483648, 0), (-2147483647, 0)}`: its `max` corner is not the point. -/
theorem envelopBox_single_not_degenerate :
    (-2147483648 : Int) = -2147483647 - 1
    ∧ envelopBox (2147483647 : Int) [(⟨-2147483648, 0⟩ : V2d Int)] getX_V2d getY_V2d
        = ⟨⟨-2147483648, 0⟩, ⟨-2147483647, 0⟩⟩
    ∧ (seedBox (2147483647 : Int)).envelopPointV ⟨-2147483648, 0⟩
        = ⟨⟨-2147483648, 0⟩, ⟨-2147483647, 0⟩⟩
    ∧ (envelopBox (2147483647 : Int) [(⟨-2147483648, 0⟩ : V2d Int)] getX_V2d getY_V2d).max
        ≠ ⟨-2147483648, 0⟩ := by
  decide

/-- C6, amended. For a point whose coordinates lie between `-max` and `max`, enveloping it
into the seed box gives the degenerate box at that point: `envelopBox` over the one-element
range, for any element type and getters, and `envelopPoint(p)` on the seed both return the
box with `min == p` and `max == p`. -/
theorem envelopBox_single_degenerate {T α : Type} [LinearOrder T] [Neg T] (maxT : T)
    (a : α) (getX getY : α → T)
    (hx : -maxT ≤ getX a ∧ getX a ≤ maxT) (hy : -maxT ≤ getY a ∧ getY a ≤ maxT) :
    envelopBox maxT [a] getX getY = ⟨⟨getX a, getY a⟩, ⟨getX a, getY a⟩⟩
    ∧ (seedBox maxT).envelopPoint (getX a) (getY a) = ⟨⟨getX a, getY a⟩, ⟨getX a, getY a⟩⟩
    ∧ (∀ p : V2d T, getX a = p.x → getY a = p.y →
        envelopBox maxT [p] getX_V2d getY_V2d = ⟨p, p⟩
        ∧ (seedBox maxT).envelopPointV p = ⟨p, p⟩) := by
  have key : (seedBox maxT).envelopPoint (getX a) (getY a)
      = ⟨⟨getX a, getY a⟩, ⟨getX a, getY a⟩⟩ := by
    simp only [Box2d.envelopPoint, seedBox, stdMin_eq_min, stdMax_eq_max]
    rw [min_eq_left hx.2, min_eq_left hy.2, max_eq_left hx.1, max_eq_left hy.1]
  refine ⟨?_, key, ?_⟩
  · simpa [envelopBox] using key
  · intro p hpx hpy
    rw [hpx, hpy] at key
    exact ⟨by simpa [envelopBox, getX_V2d, getY_V2d] using key,
      by simpa [Box2d.envelopPointV] using key⟩

/-- Instance of the amended C6 at the point `(5, -7)` of an 8-bit coordinate type. -/
theorem envelopBox_single_degenerate_witness :
    (-(127 : Int) ≤ getX_V2d (⟨5, -7⟩ : V2d Int) ∧ getX_V2d (⟨5, -7⟩ : V2d Int) ≤ 127)
    ∧ (-(127 : Int) ≤ getY_V2d (⟨5, -7⟩ : V2d Int) ∧ getY_V2d (⟨5, -7⟩ : V2d Int) ≤ 127)
    ∧ envelopBox (127 : Int) [(⟨5, -7⟩ : V2d Int)] getX_V2d getY_V2d
        = ⟨⟨5, -7⟩, ⟨5, -7⟩⟩ :=
  ⟨by decide, by decide,
    (envelopBox_single_degenerate (127 : Int) (⟨5, -7⟩ : V2d Int) getX_V2d getY_V2d
      (by decide) (by decide)).1⟩

/-! ## C7 -/

/-- C7, as stated, fails on a coordinate type with a `NaN`: on the box `{(0, 0), (1, 1)}`
`envelopPoint(NaN, 0)` sets both `min.x` and `max.x` to `NaN`
(`std::min(NaN, 0)` and `std::max(NaN, 1)` return their first argument, every comparison
with `NaN` being false), so the new box contains neither the point `(NaN, 0)` nor the
point `(0, 0)` that the box contained before, and its `min.x` is not at most the old one. -/
theorem envelopPoint_nan_loses_box :
    (⟨⟨.num 0, .num 0⟩, ⟨.num 1, .num 1⟩⟩ : Box2d DoubleLike).envelopPoint .nan (.num 0)
        = ⟨⟨.nan, .num 0⟩, ⟨.nan, .num 1⟩⟩
    ∧ ¬ ((⟨⟨.num 0, .num 0⟩, ⟨.num 1, .num 1⟩⟩ : Box2d DoubleLike).envelopPoint
          .nan (.num 0)).contains .nan (.num 0)
    ∧ (⟨⟨.num 0, .num 0⟩, ⟨.num 1, .num 1⟩⟩ : Box2d DoubleLike).contains (.num 0) (.num 0)
    ∧ ¬ ((⟨⟨.num 0, .num 0⟩, ⟨.num 1, .num 1⟩⟩ : Box2d DoubleLike).envelopPoint
          .nan (.num 0)).contains (.num 0) (.num 0)
    ∧ ¬ (((⟨⟨.num 0, .num 0⟩, ⟨.num 1, .num 1⟩⟩ : Box2d DoubleLike).envelopPoint
          .nan (.num 0)).min.x ≤ (DoubleLike.num 0)) := by
  decide

/-- C7, amended. Over a totally ordered coordinate type enveloping a point only grows the
box to cover it: after `envelopPoint(x, y)` the box contains `(x, y)`, its min corner is
componentwise at most the old one and its max corner at least the old one, so every point
the box contained is still contained; and `envelopPoint(p)` is `envelopPoint(p.x, p.y)`. -/
theorem envelopPoint_grows {T : Type} [LinearOrder T] (box : Box2d T) (x y : T) :
    (box.envelopPoint x y).contains x y
    ∧ (box.envelopPoint x y).min.x ≤ box.min.x
    ∧ (box.envelopPoint x y).min.y ≤ box.min.y
    ∧ box.max.x ≤ (box.envelopPoint x y).max.x
    ∧ box.max.y ≤ (box.envelopPoint x y).max.y
    ∧ (∀ qx qy : T, box.contains qx qy → (box.envelopPoint x y).contains qx qy)
    ∧ (∀ p : V2d T, box.envelopPointV p = box.envelopPoint p.x p.y) := by
  simp only [Box2d.contains, Box2d.envelopPoint, Box2d.envelopPointV, stdMin_eq_min,
    stdMax_eq_max]
  refine ⟨⟨min_le_left _ _, le_max_left _ _, min_le_left _ _, le_max_left _ _⟩,
    min_le_right _ _, min_le_right _ _, le_max_right _ _, le_max_right _ _, ?_, fun _ => trivial⟩
  intro qx qy h
  exact ⟨le_trans (min_le_right _ _) h.1, le_trans h.2.1 (le_max_right _ _),
    le_trans (min_le_right _ _) h.2.2.1, le_trans h.2.2.2 (le_max_right _ _)⟩

/-! ## Corner lookups -/

theorem opoNbr_eq_self (k : Nat) (hk : k < 3) : opoNbr k = some k := by
  match k, hk with
  | 0, _ => decide
  | 1, _ => decide
  | 2, _ => decide

theorem opoVrt_eq_self (k : Nat) (hk : k < 3) : opoVrt k = some k := by
  match k, hk with
  | 0, _ => decide
  | 1, _ => decide
  | 2, _ => decide

theorem vertexInd_some (tri : Triangle) (v k : Nat) (h : vertexInd tri v = some k) :
    k < 3 ∧ tri.vertices.at k = some v := by
  unfold vertexInd at h
  split at h
  · next h0 => cases h; exact ⟨by decide, by simp [Arr3.at, h0]⟩
  · split at h
    · next h1 => cases h; exact ⟨by decide, by simp [Arr3.at, h1]⟩
    · split at h
      · next h2 => cases h; exact ⟨by decide, by simp [Arr3.at, h2]⟩
      · cases h

theorem vertexInd_none (tri : Triangle) (v : Nat) :
    vertexInd tri v = none
      ↔ (v ≠ tri.vertices.e0 ∧ v ≠ tri.vertices.e1 ∧ v ≠ tri.vertices.e2) := by
  unfold vertexInd
  by_cases h0 : v = tri.vertices.e0
  · rw [if_pos h0]
    exact ⟨fun h => (by cases h), fun h => absurd h0 h.1⟩
  · rw [if_neg h0]
    by_cases h1 : v = tri.vertices.e1
    · rw [if_pos h1]
      exact ⟨fun h => (by cases h), fun h => absurd h1 h.2.1⟩
    · rw [if_neg h1]
      by_cases h2 : v = tri.vertices.e2
      · rw [if_pos h2]
        exact ⟨fun h => (by cases h), fun h => absurd h2 h.2.2⟩
      · rw [if_neg h2]
        exact ⟨fun _ => ⟨h0, h1, h2⟩, fun _ => rfl⟩

theorem neighborInd_some (tri : Triangle) (t k : Nat) (h : neighborInd tri t = some k) :
    k < 3 ∧ tri.neighbors.at k = some t := by
  unfold neighborInd at h
  split at h
  · next h0 => cases h; exact ⟨by decide, by simp [Arr3.at, h0]⟩
  · split at h
    · next h1 => cases h; exact ⟨by decide, by simp [Arr3.at, h1]⟩
    · split at h
      · next h2 => cases h; exact ⟨by decide, by simp [Arr3.at, h2]⟩
      · cases h

theorem neighborInd_none (tri : Triangle) (t : Nat) :
    neighborInd tri t = none
      ↔ (t ≠ tri.neighbors.e0 ∧ t ≠ tri.neighbors.e1 ∧ t ≠ tri.neighbors.e2) := by
  unfold neighborInd
  by_cases h0 : t = tri.neighbors.e0
  · rw [if_pos h0]
    exact ⟨fun h => (by cases h), fun h => absurd h0 h.1⟩
  · rw [if_neg h0]
    by_cases h1 : t = tri.neighbors.e1
    · rw [if_pos h1]
      exact ⟨fun h => (by cases h), fun h => absurd h1 h.2.1⟩
    · rw [if_neg h1]
      by_cases h2 : t = tri.neighbors.e2
      · rw [if_pos h2]
        exact ⟨fun h => (by cases h), fun h => absurd h2 h.2.2⟩
      · rw [if_neg h2]
        exact ⟨fun _ => ⟨h0, h1, h2⟩, fun _ => rfl⟩

theorem opposedTriangleInd_eq_vertexInd (tri : Triangle) (v : Nat) :
    opposedTriangleInd tri v = vertexInd tri v := rfl

theorem opposedVertexInd_eq_neighborInd (tri : Triangle) (t : Nat) :
    opposedVertexInd tri t = neighborInd tri t := rfl

/-! ## C8 -/

/-- C8. Vertex lookup in a triangle succeeds exactly when the vertex is present:
`vertexInd(tri, v)` and `opposedTriangleInd(tri, v)` both fail iff `v` is none of the three
vertices of `tri`; otherwise each returns a corner index `k` in `0, 1, 2` with
`vertices[k] == v`, and the corner returned by `opposedTriangleInd` is also the slot of the
neighbor opposed to that vertex. -/
theorem vertex_lookup_found_iff_present (tri : Triangle) (v : Nat) :
    (vertexInd tri v = none
      ↔ (v ≠ tri.vertices.e0 ∧ v ≠ tri.vertices.e1 ∧ v ≠ tri.vertices.e2))
    ∧ (opposedTriangleInd tri v = none
      ↔ (v ≠ tri.vertices.e0 ∧ v ≠ tri.vertices.e1 ∧ v ≠ tri.vertices.e2))
    ∧ ((v = tri.vertices.e0 ∨ v = tri.vertices.e1 ∨ v = tri.vertices.e2) →
        ∃ k, vertexInd tri v = some k ∧ opposedTriangleInd tri v = some k)
    ∧ (∀ k, vertexInd tri v = some k → k < 3 ∧ tri.vertices.at k = some v)
    ∧ (∀ k, opposedTriangleInd tri v = some k → k < 3 ∧ tri.vertices.at k = some v)
    ∧ opposedTriangleInd tri v = (vertexInd tri v).bind opoNbr := by
  have hsame := opposedTriangleInd_eq_vertexInd tri v
  refine ⟨vertexInd_none tri v, ?_, ?_, vertexInd_some tri v, ?_, ?_⟩
  · rw [hsame]
    exact vertexInd_none tri v
  · intro hpres
    cases hv : vertexInd tri v with
    | none =>
      have := (vertexInd_none tri v).mp hv
      rcases hpres with h | h | h
      · exact absurd h this.1
      · exact absurd h this.2.1
      · exact absurd h this.2.2
    | some k => exact ⟨k, rfl, by rw [hsame, hv]⟩
  · intro k hk
    rw [hsame] at hk
    exact vertexInd_some tri v k hk
  · rw [hsame]
    cases hv : vertexInd tri v with
    | none => rfl
    | some k =>
      have hk := (vertexInd_some tri v k hv).1
      simp [opoNbr_eq_self k hk]

/-! ## C9 -/

/-- C9. Neighbor lookup in a triangle succeeds exactly when the neighbor is present:
`opposedVertexInd(tri, t)` and `neighborInd(tri, t)` both fail iff `t` is none of the three
neighbors of `tri`; otherwise each returns a corner index `k` in `0, 1, 2` with
`neighbors[k] == t`, the two functions return the same `k`, and that corner is also the
slot of the vertex opposed to the neighbor. -/
theorem neighbor_lookup_found_iff_present (tri : Triangle) (t : Nat) :
    (neighborInd tri t = none
      ↔ (t ≠ tri.neighbors.e0 ∧ t ≠ tri.neighbors.e1 ∧ t ≠ tri.neighbors.e2))
    ∧ (opposedVertexInd tri t = none
      ↔ (t ≠ tri.neighbors.e0 ∧ t ≠ tri.neighbors.e1 ∧ t ≠ tri.neighbors.e2))
    ∧ ((t = tri.neighbors.e0 ∨ t = tri.neighbors.e1 ∨ t = tri.neighbors.e2) →
        ∃ k, neighborInd tri t = some k ∧ opposedVertexInd tri t = some k)
    ∧ (∀ k, neighborInd tri t = some k → k < 3 ∧ tri.neighbors.at k = some t)
    ∧ (∀ k, opposedVertexInd tri t = some k → k < 3 ∧ tri.neighbors.at k = some t)
    ∧ opposedVertexInd tri t = neighborInd tri t
    ∧ opposedVertexInd tri t = (neighborInd tri t).bind opoVrt := by
  have hsame := opposedVertexInd_eq_neighborInd tri t
  refine ⟨neighborInd_none tri t, ?_, ?_, neighborInd_some tri t, ?_, hsame, ?_⟩
  · rw [hsame]
    exact neighborInd_none tri t
  · intro hpres
    cases hv : neighborInd tri t with
    | none =>
      have := (neighborInd_none tri t).mp hv
      rcases hpres with h | h | h
      · exact absurd h this.1
      · exact absurd h this.2.1
      · exact absurd h this.2.2
    | some k => exact ⟨k, rfl, by rw [hsame, hv]⟩
  · intro k hk
    rw [hsame] at hk
    exact neighborInd_some tri t k hk
  · rw [hsame]
    cases hv : neighborInd tri t with
    | none => rfl
    | some k =>
      have hk := (neighborInd_some tri t k hv).1
      simp [opoVrt_eq_self k hk]

/-! ## C10 -/

/-- C10. The opposite-slot mappings are identities: for every corner index `i` in
`0, 1, 2`, `opoNbr(i) == i` and `opoVrt(i) == i`; `neighbors[i]` is the triangle across the
side `(vertices[ccw(i)], vertices[cw(i)])`, whose two ends are the two corners other than
`i`, so `i` is the one corner facing it and no other slot faces corner `i`. -/
theorem opposite_slots_are_identity (i : Nat) (hi : i < 3) :
    opoNbr i = some i
    ∧ opoVrt i = some i
    ∧ sideOfNeighbor i = (ccw i, cw i)
    ∧ ccw i ≠ i ∧ cw i ≠ i ∧ ccw i ≠ cw i
    ∧ isOpposed i i = true
    ∧ (∀ n, n < 3 → isOpposed i n = true → n = i)
    ∧ (∀ v, v < 3 → isOpposed v i = true → v = i) := by
  match i, hi with
  | 0, _ => decide
  | 1, _ => decide
  | 2, _ => decide

/-- Instance of C10 at the corner `2`: the side of `neighbors[2]` joins the corners `0` and
`1`. -/
theorem opposite_slots_are_identity_witness :
    (2 : Nat) < 3
    ∧ sideOfNeighbor 2 = (0, 1)
    ∧ (opoNbr 2 = some 2
      ∧ opoVrt 2 = some 2
      ∧ sideOfNeighbor 2 = (ccw 2, cw 2)
      ∧ ccw 2 ≠ 2 ∧ cw 2 ≠ 2 ∧ ccw 2 ≠ cw 2
      ∧ isOpposed 2 2 = true
      ∧ (∀ n, n < 3 → isOpposed 2 n = true → n = 2)
      ∧ (∀ v, v < 3 → isOpposed v 2 = true → v = 2)) :=
  ⟨by decide, by decide, opposite_slots_are_identity 2 (by decide)⟩

/-! ## C11 -/

/-- C11. `classifyOrientation` partitions the orientation values by the tolerance band: for
a tolerance `t >= 0` the result is `OnLine` iff `-t <= o <= t`, `Left` iff `o > t` and
`Right` iff `o < -t`; with the tolerance `0` it is the sign test. -/
theorem classifyOrientation_band {T : Type} [LinearOrderedAddCommGroup T] (o t : T)
    (ht : 0 ≤ t) :
    (classifyOrientation o t = PtLineLocation.OnLine ↔ (-t ≤ o ∧ o ≤ t))
    ∧ (classifyOrientation o t = PtLineLocation.Left ↔ t < o)
    ∧ (classifyOrientation o t = PtLineLocation.Right ↔ o < -t)
    ∧ (classifyOrientation o 0 = PtLineLocation.OnLine ↔ o = 0)
    ∧ (classifyOrientation o 0 = PtLineLocation.Left ↔ 0 < o)
    ∧ (classifyOrientation o 0 = PtLineLocation.Right ↔ o < 0) := by
  have band : ∀ s : T, 0 ≤ s →
      (classifyOrientation o s = PtLineLocation.OnLine ↔ (-s ≤ o ∧ o ≤ s))
      ∧ (classifyOrientation o s = PtLineLocation.Left ↔ s < o)
      ∧ (classifyOrientation o s = PtLineLocation.Right ↔ o < -s) := by
    intro s hs
    have hneg : -s ≤ 0 := neg_nonpos.mpr hs
    unfold classifyOrientation
    by_cases hb : -s ≤ o ∧ o ≤ s
    · rw [if_pos hb]
      refine ⟨⟨fun _ => hb, fun _ => rfl⟩, ⟨fun h => (by cases h), fun h => ?_⟩,
        ⟨fun h => (by cases h), fun h => ?_⟩⟩
      · exact absurd hb.2 (not_le.mpr h)
      · exact absurd hb.1 (not_le.mpr h)
    · rw [if_neg hb]
      by_cases hp : 0 < o
      · rw [if_pos hp]
        have hlo : -s ≤ o := le_trans hneg (le_of_lt hp)
        have hso : s < o := by
          by_contra hc
          exact hb ⟨hlo, not_lt.mp hc⟩
        refine ⟨⟨fun h => (by cases h), fun h => absurd h hb⟩, ⟨fun _ => hso, fun _ => rfl⟩,
          ⟨fun h => (by cases h), fun h => ?_⟩⟩
        exact absurd hlo (not_le.mpr h)
      · rw [if_neg hp]
        have ho : o ≤ 0 := not_lt.mp hp
        have hos : o ≤ s := le_trans ho hs
        have hlt : o < -s := by
          by_contra hc
          exact hb ⟨not_lt.mp hc, hos⟩
        refine ⟨⟨fun h => (by cases h), fun h => absurd h hb⟩,
          ⟨fun h => (by cases h), fun h => ?_⟩, ⟨fun _ => hlt, fun _ => rfl⟩⟩
        exact absurd hos (not_le.mpr h)
  obtain ⟨b1, b2, b3⟩ := band t ht
  obtain ⟨z1, z2, z3⟩ := band 0 (le_refl 0)
  refine ⟨b1, b2, b3, ?_, z2, ?_⟩
  · rw [z1, neg_zero]
    exact ⟨fun h => le_antisymm h.2 h.1, fun h => ⟨le_of_eq h.symm, le_of_eq h⟩⟩
  · rw [z3, neg_zero]

/-- Instance of C11 over the integers at the value `5` and the tolerance `2`: `Left`. -/
theorem classifyOrientation_band_witness :
    (0 : Int) ≤ 2
    ∧ classifyOrientation (5 : Int) 2 = PtLineLocation.Left
    ∧ (classifyOrientation (5 : Int) 2 = PtLineLocation.Left ↔ (2 : Int) < 5) :=
  ⟨by decide, by decide, (classifyOrientation_band (5 : Int) 2 (by decide)).2.1⟩

/-! ## C12 -/

/-- C12. `verticesShareEdge(aTris, bTris)` is true iff the two sequences of triangle
indices have an element in common; it is false when either sequence is empty, and it is
symmetric in its two arguments. -/
theorem verticesShareEdge_iff_common (aTris bTris : List Nat) :
    (verticesShareEdge aTris bTris = true ↔ ∃ t, t ∈ aTris ∧ t ∈ bTris)
    ∧ verticesShareEdge [] bTris = false
    ∧ verticesShareEdge aTris [] = false
    ∧ verticesShareEdge aTris bTris = verticesShareEdge bTris aTris := by
  have key : ∀ a b : List Nat, verticesShareEdge a b = true ↔ ∃ t, t ∈ a ∧ t ∈ b := by
    intro a b
    simp [verticesShareEdge, List.any_eq_true]
  refine ⟨key aTris bTris, rfl, ?_, ?_⟩
  · cases h : verticesShareEdge aTris [] with
    | false => rfl
    | true =>
      obtain ⟨t, _, ht⟩ := (key aTris []).mp h
      cases ht
  · cases hab : verticesShareEdge aTris bTris with
    | true =>
      obtain ⟨t, h1, h2⟩ := (key aTris bTris).mp hab
      exact ((key bTris aTris).mpr ⟨t, h2, h1⟩).symm
    | false =>
      cases hba : verticesShareEdge bTris aTris with
      | false => rfl
      | true =>
        obtain ⟨t, h1, h2⟩ := (key bTris aTris).mp hba
        rw [(key aTris bTris).mpr ⟨t, h2, h1⟩] at hab
        cases hab

/-! ## C13 -/

/-- C13. `isOnEdge` is true exactly on `OnEdge1`, `OnEdge2`, `OnEdge3` (false on `Inside`
and `Outside`), and on those `edgeNeighbor` gives the corner index `0`, `1`, `2`
respectively, always below `3`. -/
theorem onEdge_helpers (location : PtTriLocation) :
    (isOnEdge location = true ↔ (location = PtTriLocation.OnEdge1
        ∨ location = PtTriLocation.OnEdge2 ∨ location = PtTriLocation.OnEdge3))
    ∧ isOnEdge PtTriLocation.Inside = false
    ∧ isOnEdge PtTriLocation.Outside = false
    ∧ edgeNeighbor PtTriLocation.OnEdge1 = some 0
    ∧ edgeNeighbor PtTriLocation.OnEdge2 = some 1
    ∧ edgeNeighbor PtTriLocation.OnEdge3 = some 2
    ∧ (isOnEdge location = true → ∃ k, edgeNeighbor location = some k ∧ k < 3) := by
  cases location <;> simp [isOnEdge, edgeNeighbor]

/-! ## C14 -/

/-- C14. The sentinels are the greatest values of the index type: `noNeighbor` and
`noVertex` are `2 ^ w - 1` for the index width `w`, which is `32` by default and `64` with
`CDT_USE_64_BIT_INDEX_TYPE`; they are not zero and every other value of the index type is
strictly smaller. -/
theorem sentinels_are_max (use64BitIndex : Bool) :
    indexSizeBits false = 32
    ∧ indexSizeBits true = 64
    ∧ noNeighbor use64BitIndex = 2 ^ indexSizeBits use64BitIndex - 1
    ∧ noVertex use64BitIndex = 2 ^ indexSizeBits use64BitIndex - 1
    ∧ noNeighbor false = 4294967295
    ∧ noNeighbor true = 18446744073709551615
    ∧ noNeighbor use64BitIndex ≠ 0
    ∧ noVertex use64BitIndex ≠ 0
    ∧ (∀ i, i < 2 ^ indexSizeBits use64BitIndex → i ≠ noNeighbor use64BitIndex →
        i < noNeighbor use64BitIndex)
    ∧ (∀ i, i < 2 ^ indexSizeBits use64BitIndex → i ≠ noVertex use64BitIndex →
        i < noVertex use64BitIndex) := by
  refine ⟨rfl, rfl, rfl, rfl, by decide, by decide, ?_, ?_, ?_, ?_⟩
  · cases use64BitIndex <;> decide
  · cases use64BitIndex <;> decide
  · intro i h1 h2
    unfold noNeighbor unsignedLimitsMax at *
    omega
  · intro i h1 h2
    unfold noVertex unsignedLimitsMax at *
    omega

/-! ## C15 -/

/-- C15. Equality of `V2d` is exact and componentwise: `a == b` holds iff `a.x == b.x` and
`a.y == b.y`, so it is reflexive, symmetric and transitive (it holds iff the two points are
the same), and `getX_V2d`, `getY_V2d` return the fields that are compared. -/
theorem V2d_equals_componentwise {T : Type} [DecidableEq T] (a b c : V2d T) :
    (a.equals b = true ↔ (a.x = b.x ∧ a.y = b.y))
    ∧ (a.equals b = true ↔ (getX_V2d a = getX_V2d b ∧ getY_V2d a = getY_V2d b))
    ∧ (a.equals b = true ↔ a = b)
    ∧ a.equals a = true
    ∧ a.equals b = b.equals a
    ∧ (a.equals b = true → b.equals c = true → a.equals c = true)
    ∧ getX_V2d a = a.x
    ∧ getY_V2d a = a.y := by
  have key : ∀ p q : V2d T, p.equals q = true ↔ (p.x = q.x ∧ p.y = q.y) := by
    intro p q
    simp [V2d.equals]
  have keq : ∀ p q : V2d T, p.equals q = true ↔ p = q := by
    intro p q
    rw [key]
    constructor
    · intro h
      cases p
      cases q
      simp only [V2d.mk.injEq]
      exact h
    · intro h
      rw [h]
      exact ⟨rfl, rfl⟩
  refine ⟨key a b, key a b, keq a b, (keq a a).mpr rfl, ?_, ?_, rfl, rfl⟩
  · cases hab : a.equals b with
    | true => exact ((keq b a).mpr ((keq a b).mp hab).symm).symm
    | false =>
      cases hba : b.equals a with
      | false => rfl
      | true =>
        rw [(keq a b).mpr ((keq b a).mp hba).symm] at hab
        cases hab
  · intro h1 h2
    exact (keq a c).mpr (((keq a b).mp h1).trans ((keq b c).mp h2))

/-! ## Algebra of `envelopPoint` -/

theorem envelopPoint_eq_min_max {T : Type} [LinearOrder T] (box : Box2d T) (x y : T) :
    box.envelopPoint x y
      = ⟨⟨min x box.min.x, min y box.min.y⟩, ⟨max x box.max.x, max y box.max.y⟩⟩ := by
  simp [Box2d.envelopPoint, stdMin_eq_min, stdMax_eq_max]

theorem envelopPoint_comm {T : Type} [LinearOrder T] (box : Box2d T) (px py qx qy : T) :
    (box.envelopPoint px py).envelopPoint qx qy
      = (box.envelopPoint qx qy).envelopPoint px py := by
  simp only [envelopPoint_eq_min_max]
  rw [min_left_comm qx px, min_left_comm qy py, max_left_comm qx px, max_left_comm qy py]

/-! ## C16 -/

/-- C16. `envelopPoint` changes the box exactly when the point is outside it: the four
fields of the box are unchanged by `envelopPoint(x, y)` iff `min.x <= x <= max.x` and
`min.y <= y <= max.y`. -/
theorem envelopPoint_unchanged_iff_inside {T : Type} [LinearOrder T] (box : Box2d T)
    (x y : T) :
    (((box.envelopPoint x y).min.x = box.min.x ∧ (box.envelopPoint x y).max.x = box.max.x
        ∧ (box.envelopPoint x y).min.y = box.min.y
        ∧ (box.envelopPoint x y).max.y = box.max.y)
      ↔ (box.min.x ≤ x ∧ x ≤ box.max.x ∧ box.min.y ≤ y ∧ y ≤ box.max.y))
    ∧ (box.envelopPoint x y = box ↔ box.contains x y) := by
  have fields : ((box.envelopPoint x y).min.x = box.min.x
        ∧ (box.envelopPoint x y).max.x = box.max.x
        ∧ (box.envelopPoint x y).min.y = box.min.y
        ∧ (box.envelopPoint x y).max.y = box.max.y)
      ↔ (box.min.x ≤ x ∧ x ≤ box.max.x ∧ box.min.y ≤ y ∧ y ≤ box.max.y) := by
    simp only [envelopPoint_eq_min_max, min_eq_right_iff, max_eq_right_iff]
  refine ⟨fields, ?_⟩
  unfold Box2d.contains
  rw [← fields]
  constructor
  · intro h
    rw [h]
    exact ⟨rfl, rfl, rfl, rfl⟩
  · intro h
    obtain ⟨h1, h2, h3, h4⟩ := h
    obtain ⟨⟨mx, my⟩, ⟨Mx, My⟩⟩ := box
    simp only [envelopPoint_eq_min_max] at h1 h2 h3 h4 ⊢
    rw [h1, h2, h3, h4]

/-! ## C17 -/

/-- C17. Envelopment is idempotent and independent of the order: enveloping a point twice
is enveloping it once, enveloping `p` then `q` gives the box of enveloping `q` then `p`,
and `envelopBox` returns the same box for every permutation of its range. -/
theorem envelop_idempotent_order_independent {T α : Type} [LinearOrder T] [Neg T]
    (box : Box2d T) (px py qx qy : T) (maxT : T) (getX getY : α → T) :
    (box.envelopPoint px py).envelopPoint px py = box.envelopPoint px py
    ∧ (box.envelopPoint px py).envelopPoint qx qy
        = (box.envelopPoint qx qy).envelopPoint px py
    ∧ (∀ l1 l2 : List α, l1.Perm l2 →
        envelopBox maxT l1 getX getY = envelopBox maxT l2 getX getY) := by
  refine ⟨?_, envelopPoint_comm box px py qx qy, ?_⟩
  · simp only [envelopPoint_eq_min_max]
    rw [← min_assoc, ← min_assoc, ← max_assoc, ← max_assoc, min_self, min_self, max_self,
      max_self]
  · intro l1 l2 hperm
    unfold envelopBox
    exact List.Perm.foldl_eq' hperm
      (fun a _ b _ z => envelopPoint_comm z (getX a) (getY a) (getX b) (getY b)) _

/-! ## C18 -/

/-- C18. The box of a non-empty range, whatever its coordinates, has `min.x <= max.x` and
`min.y <= max.y`; `envelopPoint` keeps `min <= max` on a box that satisfies it; the box of
the empty range is the seed `{(max, max), (-max, -max)}`, which for `max > 0` is inverted
(`min.x > max.x`) and contains no point. -/
theorem envelopBox_wellformed {T α : Type} [LinearOrderedAddCommGroup T] (maxT : T)
    (pts : List α) (getX getY : α → T) :
    (pts ≠ [] →
        (envelopBox maxT pts getX getY).min.x ≤ (envelopBox maxT pts getX getY).max.x
        ∧ (envelopBox maxT pts getX getY).min.y ≤ (envelopBox maxT pts getX getY).max.y)
    ∧ (∀ (box : Box2d T) (x y : T), box.min.x ≤ box.max.x → box.min.y ≤ box.max.y →
        (box.envelopPoint x y).min.x ≤ (box.envelopPoint x y).max.x
        ∧ (box.envelopPoint x y).min.y ≤ (box.envelopPoint x y).max.y)
    ∧ envelopBox maxT ([] : List α) getX getY = ⟨⟨maxT, maxT⟩, ⟨-maxT, -maxT⟩⟩
    ∧ (0 < maxT →
        (envelopBox maxT ([] : List α) getX getY).min.x
            > (envelopBox maxT ([] : List α) getX getY).max.x
        ∧ (envelopBox maxT ([] : List α) getX getY).min.y
            > (envelopBox maxT ([] : List α) getX getY).max.y
        ∧ ∀ x y : T, ¬ (envelopBox maxT ([] : List α) getX getY).contains x y) := by
  refine ⟨?_, ?_, rfl, ?_⟩
  · intro hne
    obtain ⟨a, ha⟩ := List.exists_mem_of_ne_nil pts hne
    unfold envelopBox
    rw [envelop_fold_min_x, envelop_fold_min_y, envelop_fold_max_x, envelop_fold_max_y]
    exact ⟨le_trans ((foldl_min_spec getX pts _).2.1 a ha)
        ((foldl_max_spec getX pts _).2.1 a ha),
      le_trans ((foldl_min_spec getY pts _).2.1 a ha)
        ((foldl_max_spec getY pts _).2.1 a ha)⟩
  · intro box x y _ _
    simp only [envelopPoint_eq_min_max]
    exact ⟨le_trans (min_le_left _ _) (le_max_left _ _),
      le_trans (min_le_left _ _) (le_max_left _ _)⟩
  · intro hpos
    have hlt : -maxT < maxT := lt_trans (neg_neg_of_pos hpos) hpos
    refine ⟨hlt, hlt, ?_⟩
    intro x y hc
    have h1 : maxT ≤ x := hc.1
    have h2 : x ≤ -maxT := hc.2.1
    exact absurd (le_trans h1 h2) (not_le.mpr hlt)

end CDT
